import Mathlib

/-!
Verification development for the transaction- and data-lifecycle core of the
reserve-data repository: the multi-node transaction rebroadcaster
(blockchain package), the Huobi intermediate-transaction Bolt storage
(storage package, Bolt variant), and the Postgres fetch-data / activity
storage (storage package, Postgres variant).

Machine integers (Go uint64) are modelled as Nat, with explicit reduction
modulo 2 ^ 64 exactly where Go performs wrapping arithmetic.  Fallible Go
functions returning (T, error) are modelled as returning a pair of the value
and an Option String (none = nil error).  Bolt buckets are modelled as
association lists from key bytes to stored values; bolt.DB.Update is
modelled by a combinator that commits the closure state on a nil error and
rolls the state back on a non-nil error, which is exactly BoltDB's
documented transactional behaviour (assumed, per the design, as the storage
engine primitive).
-/

namespace ReserveData

/-- Association-list lookup with decidable key equality: the value stored at
key `k`, if any.  Models reading a key from a Bolt bucket. -/
def alGet {α β : Type} [DecidableEq α] (k : α) : List (α × β) → Option β
  | [] => none
  | (k₁, v) :: rest => if k₁ = k then some v else alGet k rest

/-- Association-list insert-or-replace.  Models `Bucket.Put`. -/
def alPut {α β : Type} [DecidableEq α] (k : α) (v : β) : List (α × β) → List (α × β)
  | [] => [(k, v)]
  | (k₁, v₁) :: rest => if k₁ = k then (k, v) :: rest else (k₁, v₁) :: alPut k v rest

/-- Association-list delete.  Models `Bucket.Delete`. -/
def alDel {α β : Type} [DecidableEq α] (k : α) : List (α × β) → List (α × β)
  | [] => []
  | (k₁, v₁) :: rest => if k₁ = k then alDel k rest else (k₁, v₁) :: alDel k rest

theorem alGet_alPut_self {α β : Type} [DecidableEq α] (k : α) (v : β) (l : List (α × β)) :
    alGet k (alPut k v l) = some v := by
  induction l with
  | nil => simp [alPut, alGet]
  | cons hd tl ih =>
    obtain ⟨k₁, v₁⟩ := hd
    by_cases h : k₁ = k <;> simp [alPut, alGet, h, ih]

theorem alGet_alPut_ne {α β : Type} [DecidableEq α] (k k₂ : α) (v : β) (l : List (α × β))
    (hne : k₂ ≠ k) : alGet k₂ (alPut k v l) = alGet k₂ l := by
  induction l with
  | nil => simp [alPut, alGet, Ne.symm hne]
  | cons hd tl ih =>
    obtain ⟨k₁, v₁⟩ := hd
    by_cases h : k₁ = k
    · subst h
      simp [alPut, alGet, Ne.symm hne]
    · simp only [alPut, if_neg h, alGet]
      by_cases h₂ : k₁ = k₂ <;> simp [h₂, ih]

theorem alGet_alDel_self {α β : Type} [DecidableEq α] (k : α) (l : List (α × β)) :
    alGet k (alDel k l) = none := by
  induction l with
  | nil => simp [alDel, alGet]
  | cons hd tl ih =>
    obtain ⟨k₁, v₁⟩ := hd
    by_cases h : k₁ = k <;> simp [alDel, alGet, h, ih]

theorem alGet_alDel_ne {α β : Type} [DecidableEq α] (k k₂ : α) (l : List (α × β))
    (hne : k₂ ≠ k) : alGet k₂ (alDel k l) = alGet k₂ l := by
  induction l with
  | nil => simp [alDel, alGet]
  | cons hd tl ih =>
    obtain ⟨k₁, v₁⟩ := hd
    by_cases h : k₁ = k
    · subst h
      simp [alDel, alGet, Ne.symm hne, ih]
    · by_cases h₂ : k₁ = k₂
      · subst h₂
        simp [alDel, alGet, h, ih]
      · simp [alDel, alGet, h, h₂, ih]

/-!
## Rebroadcaster (blockchain package)

`Broadcast` iterates over the configured node clients, submits the signed
transaction to each, records a failure-map entry for every node whose
`SendTransaction` returned a non-nil error, and finally returns the failure
map together with the boolean `len(result) != len(self.clients) &&
len(self.clients) > 0`.

We model one invocation by the list of per-node submission outcomes: one
entry `(nodeId, outcome)` per configured node (Go map keys, hence node ids
are pairwise distinct), where `outcome = none` means `SendTransaction`
returned nil and `outcome = some e` means it returned error message `e`.
-/

/-- The failure map assembled by `Broadcast`: one entry per node whose
submission returned a non-nil error (`failures.Store(id, err)` inside
`broadcast`, drained by `failures.Range` into `result`). -/
def broadcastFailures (outcomes : List (String × Option String)) : List (String × String) :=
  outcomes.filterMap (fun o =>
    match o.2 with
    | some e => some (o.1, e)
    | none => none)

/-- Model of `Rebroadcaster.Broadcast`: the failure map together with the
returned boolean `len(result) != len(self.clients) && len(self.clients) > 0`. -/
def broadcast (outcomes : List (String × Option String)) : List (String × String) × Bool :=
  let result := broadcastFailures outcomes
  (result, (result.length != outcomes.length) && (outcomes.length > 0 : Bool))

theorem broadcastFailures_length_le (outcomes : List (String × Option String)) :
    (broadcastFailures outcomes).length ≤ outcomes.length := by
  induction outcomes with
  | nil => simp [broadcastFailures]
  | cons hd tl ih =>
    obtain ⟨i, e⟩ := hd
    cases e <;> simp [broadcastFailures] at ih ⊢ <;> omega

theorem broadcastFailures_cons_none (i : String) (tl : List (String × Option String)) :
    broadcastFailures ((i, none) :: tl) = broadcastFailures tl := by
  simp [broadcastFailures]

theorem broadcastFailures_cons_some (i e : String) (tl : List (String × Option String)) :
    broadcastFailures ((i, some e) :: tl) = (i, e) :: broadcastFailures tl := by
  simp [broadcastFailures]

theorem broadcastFailures_length_eq_iff (outcomes : List (String × Option String)) :
    (broadcastFailures outcomes).length = outcomes.length ↔ ∀ o ∈ outcomes, o.2 ≠ none := by
  induction outcomes with
  | nil => simp [broadcastFailures]
  | cons hd tl ih =>
    obtain ⟨i, e⟩ := hd
    have hle := broadcastFailures_length_le tl
    cases e with
    | none =>
      rw [broadcastFailures_cons_none]
      simp only [List.length_cons]
      constructor
      · intro hlen
        exact absurd hlen (by omega)
      · intro hall
        exact absurd rfl (hall (i, none) (List.mem_cons_self _ _))
    | some e₀ =>
      rw [broadcastFailures_cons_some]
      simp only [List.length_cons]
      constructor
      · intro hlen o ho
        rcases List.mem_cons.mp ho with h | h
        · subst h
          simp
        · exact (ih.mp (by omega)) o h
      · intro hall
        have h₁ : ∀ o ∈ tl, o.2 ≠ none := fun o ho => hall o (List.mem_cons_of_mem _ ho)
        have h₂ := ih.mpr h₁
        omega

/-- C1 counterexample: with three configured nodes that all succeed (every
per-node `SendTransaction` outcome is nil), `Broadcast` returns
`partialSuccess = true`, contradicting the claim that `partialSuccess` is
false when every node succeeds (the code returns
`len(result) != len(self.clients) && len(self.clients) > 0`, and an empty
failure map has length 0 ≠ 3). -/
theorem broadcast_all_success_counterexample :
    (broadcast [("A", none), ("B", none), ("C", none)]).2 = true ∧
      ∀ o ∈ ([("A", none), ("B", none), ("C", none)] : List (String × Option String)),
        o.2 = none := by
  decide

/-- C1 (amended): the boolean returned by `Rebroadcaster.Broadcast` is true
iff at least one node succeeded AND the node set is non-empty (no
at-least-one-failure requirement): with all nodes succeeding it is true, and
with all nodes failing, or no nodes, it is false. -/
theorem broadcast_partialSuccess_iff (outcomes : List (String × Option String)) :
    (broadcast outcomes).2 = true ↔ ((∃ o ∈ outcomes, o.2 = none) ∧ outcomes ≠ []) := by
  have h := broadcastFailures_length_eq_iff outcomes
  simp only [broadcast, Bool.and_eq_true, bne_iff_ne, ne_eq, decide_eq_true_eq]
  constructor
  · rintro ⟨hne, hpos⟩
    refine ⟨?_, by rintro rfl; simp at hpos⟩
    by_contra hno
    push_neg at hno
    exact hne (h.mpr hno)
  · rintro ⟨⟨o, ho, hnone⟩, hne⟩
    refine ⟨?_, List.length_pos.mpr hne⟩
    intro heq
    exact (h.mp heq) o ho hnone

/-!
## ActivityID, TXEntry and their key encodings

`common.ActivityID` and `common.TXEntry` live in the repository's `common`
package, outside the source files available here; they are modelled from the
spec.
-/

/-- Modelled from the spec: `common.ActivityID` is the composite key
`\x7btimepoint: uint64 (ms epoch), eid: string\x7d` that uniquely identifies one
reserve operation.  `timepoint` is a Go uint64, so meaningful values are
below `2 ^ 64`. -/
structure ActivityID where
  timepoint : Nat
  eid : String
  deriving DecidableEq, Repr

/-- Modelled from the spec: `common.TXEntry` is an opaque transaction
descriptor stored in the pending/confirmed buckets.  Its JSON serialization
can fail (the spec's error-propagation clause speaks of "whenever
serialization of the TXEntry fails"), so the model carries the entry's
serialized form together with a flag saying whether `json.Marshal` succeeds
on it. -/
structure TXEntry where
  payload : String
  marshalOk : Bool
  deriving DecidableEq, Repr

/-- Model of `json.Marshal` on a `TXEntry`: the serialized bytes, or `none`
when serialization fails. -/
def jsonMarshalTXEntry (e : TXEntry) : Option String :=
  if e.marshalOk then some e.payload else none

/-- Big-endian fixed-width byte encoding of a uint64 value: eight bytes,
most significant first. -/
def beBytes8 (t : Nat) : List Nat :=
  [t / 256 ^ 7 % 256, t / 256 ^ 6 % 256, t / 256 ^ 5 % 256, t / 256 ^ 4 % 256,
   t / 256 ^ 3 % 256, t / 256 ^ 2 % 256, t / 256 % 256, t % 256]

/-- Modelled from the spec: `ActivityID.ToBytes`, the dense byte-ordered
encoding of the id used as the confirmed bucket's key (byte-sortable,
suitable for ordered seek): the fixed-width big-endian bytes of the
timepoint followed by the eid's bytes. -/
def ActivityID.toBytes (id : ActivityID) : List Nat :=
  beBytes8 id.timepoint ++ id.eid.toList.map Char.toNat

/-- Modelled from the spec: the JSON encoding of an `ActivityID`
(`json.Marshal(id)`), used as the pending bucket's key — a structured
encoding of the (timepoint, eid) pair suited to exact lookup.  The encoding
is injective (distinct ids give distinct JSON keys); its concrete byte
syntax is irrelevant to every claim, so it is modelled as the timepoint
followed by the eid's bytes. -/
def ActivityID.toJsonKey (id : ActivityID) : List Nat :=
  id.timepoint :: id.eid.toList.map Char.toNat

theorem charToNat_injective : Function.Injective Char.toNat := by
  intro a b h
  have ha := Char.ofNat_toNat a
  have hb := Char.ofNat_toNat b
  rw [← ha, ← hb, h]

theorem eidBytes_injective (a b : String)
    (h : a.toList.map Char.toNat = b.toList.map Char.toNat) : a = b := by
  have h₁ : a.toList = b.toList := (List.map_injective_iff.mpr charToNat_injective) h
  have h₂ : a.data = b.data := h₁
  exact String.ext h₂

theorem beBytes8_length (t : Nat) : (beBytes8 t).length = 8 := by
  simp [beBytes8]

theorem beBytes8_injOn (s t : Nat) (hs : s < 2 ^ 64) (ht : t < 2 ^ 64)
    (h : beBytes8 s = beBytes8 t) : s = t := by
  simp only [beBytes8, List.cons.injEq, and_true] at h
  omega

theorem toJsonKey_injective (a b : ActivityID) (h : a.toJsonKey = b.toJsonKey) : a = b := by
  obtain ⟨ta, ea⟩ := a
  obtain ⟨tb, eb⟩ := b
  simp only [ActivityID.toJsonKey, List.cons.injEq] at h
  obtain ⟨h₁, h₂⟩ := h
  have h₃ : ea = eb := eidBytes_injective _ _ h₂
  subst h₁
  subst h₃
  rfl

theorem toBytes_injOn (a b : ActivityID) (ha : a.timepoint < 2 ^ 64)
    (hb : b.timepoint < 2 ^ 64) (h : a.toBytes = b.toBytes) : a = b := by
  obtain ⟨ta, ea⟩ := a
  obtain ⟨tb, eb⟩ := b
  simp only [ActivityID.toBytes] at h
  have hlen : (beBytes8 ta).length = (beBytes8 tb).length := by
    rw [beBytes8_length, beBytes8_length]
  obtain ⟨h₁, h₂⟩ := List.append_inj h hlen
  have h₃ : ta = tb := beBytes8_injOn _ _ ha hb h₁
  have h₄ : ea = eb := eidBytes_injective _ _ h₂
  subst h₃
  subst h₄
  rfl

/-!
## Huobi intermediate-transaction Bolt storage

`BoltStorage` keeps two buckets: `intermediate_tx` (confirmed entries, keyed
by `id.ToBytes()`) and `pending_intermediate_tx` (pending entries, keyed by
`json.Marshal(id)`).  Both mutating operations run inside a single
`bolt.DB.Update` transaction: a nil error from the closure commits its
writes, a non-nil error rolls every write back.  Engine-level `Put` and
`Delete` calls can themselves fail; those outcomes are supplied as explicit
oracle booleans.
-/

/-- The two Bolt buckets of the Huobi storage: `intermediate_tx` (confirmed,
keyed by `id.ToBytes()`) and `pending_intermediate_tx` (pending, keyed by
the JSON encoding of the id). -/
structure BoltBuckets where
  intermediate : List (List Nat × String)
  pending : List (List Nat × String)
  deriving DecidableEq, Repr

/-- The freshly initialised storage: both buckets exist and are empty. -/
def emptyBuckets : BoltBuckets := ⟨[], []⟩

/-- Model of `bolt.DB.Update`: run the closure on the current state; commit
its writes when it returns a nil error, roll everything back (state
unchanged) when it returns a non-nil error. -/
def boltUpdate (st : BoltBuckets) (f : BoltBuckets → BoltBuckets × Option String) :
    BoltBuckets × Option String :=
  match f st with
  | (st₂, none) => (st₂, none)
  | (_, some e) => (st, some e)

/-- Model of `BoltStorage.StorePendingIntermediateTx`.  `putOk` is the
oracle outcome of the engine-level `Bucket.Put`.  The source's
marshal-failure branch reads `if uErr != nil \x7b return err \x7d`, returning the
OUTER `err` variable — still nil at that point — so a failed
`json.Marshal(data)` makes the closure report success without writing
anything (`json.Marshal(id)` on an ActivityID value is total, so the id
branch never fires). -/
def storePendingIntermediateTx (st : BoltBuckets) (id : ActivityID) (data : TXEntry)
    (putOk : Bool) : BoltBuckets × Option String :=
  boltUpdate st (fun bs =>
    match jsonMarshalTXEntry data with
    | none => (bs, none)
    | some dataJSON =>
      if putOk then ({ bs with pending := alPut id.toJsonKey dataJSON bs.pending }, none)
      else (bs, some "put error"))

/-- Model of `BoltStorage.StoreIntermediateTx` (promotion): inside one
`db.Update` transaction, marshal the entry, `Put` it into the
`intermediate_tx` bucket under `id.ToBytes()`, then `Delete` the JSON key of
the id from the `pending_intermediate_tx` bucket.  `putOk` and `delOk` are
the oracle outcomes of the two engine calls; any non-nil closure error rolls
the whole transaction back. -/
def storeIntermediateTx (st : BoltBuckets) (id : ActivityID) (data : TXEntry)
    (putOk delOk : Bool) : BoltBuckets × Option String :=
  boltUpdate st (fun bs =>
    match jsonMarshalTXEntry data with
    | none => (bs, some "marshal error")
    | some dataJSON =>
      if putOk then
        let bs₂ := { bs with intermediate := alPut id.toBytes dataJSON bs.intermediate }
        if delOk then ({ bs₂ with pending := alDel id.toJsonKey bs₂.pending }, none)
        else (bs₂, some "delete error")
      else (bs, some "put error"))

/-- The id's entry is present in the pending bucket. -/
def inPending (st : BoltBuckets) (id : ActivityID) : Bool :=
  (alGet id.toJsonKey st.pending).isSome

/-- The id's entry is present in the confirmed (`intermediate_tx`) bucket. -/
def inConfirmed (st : BoltBuckets) (id : ActivityID) : Bool :=
  (alGet id.toBytes st.intermediate).isSome

/-- One invocation of a mutating intermediate-tx operation, together with
the oracle outcomes of its engine-level sub-steps. -/
inductive TxOp where
  | storePending (id : ActivityID) (data : TXEntry) (putOk : Bool)
  | promote (id : ActivityID) (data : TXEntry) (putOk : Bool) (delOk : Bool)
  deriving DecidableEq, Repr

/-- The ActivityID an operation addresses. -/
def TxOp.opId : TxOp → ActivityID
  | .storePending id _ _ => id
  | .promote id _ _ _ => id

/-- Run one operation, keeping the resulting state (the returned error goes
to the caller). -/
def runTxOp (st : BoltBuckets) : TxOp → BoltBuckets × Option String
  | .storePending id data putOk => storePendingIntermediateTx st id data putOk
  | .promote id data putOk delOk => storeIntermediateTx st id data putOk delOk

/-- Run a sequence of operations from a starting state. -/
def runTxOps (st : BoltBuckets) (ops : List TxOp) : BoltBuckets :=
  ops.foldl (fun s op => (runTxOp s op).1) st

/-- The usage protocol of the two-phase promotion: once an id has been
successfully promoted, no later `StorePendingIntermediateTx` re-stages the
same id. -/
def goodSeq : List TxOp → Prop
  | [] => True
  | (.storePending _ _ _) :: rest => goodSeq rest
  | (.promote id data putOk delOk) :: rest =>
      ((data.marshalOk && putOk && delOk) = true →
        ∀ d p, TxOp.storePending id d p ∉ rest) ∧ goodSeq rest

theorem storePendingIntermediateTx_eq (st : BoltBuckets) (id : ActivityID) (data : TXEntry)
    (putOk : Bool) :
    storePendingIntermediateTx st id data putOk =
      if data.marshalOk then
        if putOk then ({ st with pending := alPut id.toJsonKey data.payload st.pending }, none)
        else (st, some "put error")
      else (st, none) := by
  cases hm : data.marshalOk <;> cases putOk <;>
    simp [storePendingIntermediateTx, boltUpdate, jsonMarshalTXEntry, hm]

theorem storeIntermediateTx_eq (st : BoltBuckets) (id : ActivityID) (data : TXEntry)
    (putOk delOk : Bool) :
    storeIntermediateTx st id data putOk delOk =
      if (data.marshalOk && putOk && delOk) = true then
        ({ intermediate := alPut id.toBytes data.payload st.intermediate,
           pending := alDel id.toJsonKey st.pending }, none)
      else
        (st, some (if data.marshalOk = false then "marshal error"
                   else if putOk = false then "put error" else "delete error")) := by
  cases hm : data.marshalOk <;> cases putOk <;> cases delOk <;>
    simp [storeIntermediateTx, boltUpdate, jsonMarshalTXEntry, hm]

theorem toJsonKey_ne (id id₁ : ActivityID) (h : id ≠ id₁) :
    id.toJsonKey ≠ id₁.toJsonKey :=
  fun hk => h (toJsonKey_injective _ _ hk)

theorem toBytes_ne (id id₁ : ActivityID) (ha : id.timepoint < 2 ^ 64)
    (hb : id₁.timepoint < 2 ^ 64) (h : id ≠ id₁) : id.toBytes ≠ id₁.toBytes :=
  fun hk => h (toBytes_injOn _ _ ha hb hk)

theorem runTxOps_append (st : BoltBuckets) (ops : List TxOp) (op : TxOp) :
    runTxOps st (ops ++ [op]) = (runTxOp (runTxOps st ops) op).1 := by
  simp [runTxOps, List.foldl_append]

theorem goodSeq_append_right (l l₂ : List TxOp) : goodSeq (l ++ l₂) → goodSeq l := by
  induction l with
  | nil => intro _; trivial
  | cons op rest ih =>
    intro h
    simp only [List.cons_append] at h
    cases op with
    | storePending id d p =>
      simp only [goodSeq] at h ⊢
      exact ih h
    | promote id d p dl =>
      simp only [goodSeq] at h ⊢
      obtain ⟨hc, hrest⟩ := h
      exact ⟨fun hs d₀ p₀ hmem => hc hs d₀ p₀ (List.mem_append_left _ hmem), ih hrest⟩

theorem goodSeq_no_restage (l : List TxOp) (id : ActivityID) (d₀ : TXEntry) (p₀ : Bool) :
    goodSeq (l ++ [TxOp.storePending id d₀ p₀]) →
    ∀ data putOk delOk, TxOp.promote id data putOk delOk ∈ l →
      (data.marshalOk && putOk && delOk) = true → False := by
  induction l with
  | nil =>
    intro _ data putOk delOk hmem _
    simp at hmem
  | cons op rest ih =>
    intro h data putOk delOk hmem hs
    simp only [List.cons_append] at h
    cases op with
    | storePending id₁ d₁ p₁ =>
      simp only [goodSeq] at h
      rcases List.mem_cons.mp hmem with heq | hmem₂
      · exact absurd heq (by simp)
      · exact ih h data putOk delOk hmem₂ hs
    | promote id₁ d₁ p₁ dl₁ =>
      simp only [goodSeq] at h
      rcases List.mem_cons.mp hmem with heq | hmem₂
      · cases heq
        exact h.1 hs d₀ p₀ (List.mem_append_right _ (by simp))
      · exact ih h.2 data putOk delOk hmem₂ hs

theorem runTxOps_exclusive_aux (ops : List TxOp) :
    (∀ op ∈ ops, op.opId.timepoint < 2 ^ 64) → goodSeq ops →
    (∀ id : ActivityID, id.timepoint < 2 ^ 64 →
        inPending (runTxOps emptyBuckets ops) id = false ∨
        inConfirmed (runTxOps emptyBuckets ops) id = false) ∧
    (∀ id : ActivityID, id.timepoint < 2 ^ 64 →
        inConfirmed (runTxOps emptyBuckets ops) id = true →
        ∃ data putOk delOk, TxOp.promote id data putOk delOk ∈ ops ∧
          (data.marshalOk && putOk && delOk) = true) := by
  induction ops using List.reverseRecOn with
  | nil =>
    intro _ _
    constructor
    · intro id _
      left
      rfl
    · intro id _ hconf
      simp [runTxOps, inConfirmed, emptyBuckets, alGet] at hconf
  | append_singleton ops op ih =>
    intro hb hg
    have hb₀ : ∀ o ∈ ops, o.opId.timepoint < 2 ^ 64 :=
      fun o ho => hb o (List.mem_append_left _ ho)
    have hbop : op.opId.timepoint < 2 ^ 64 := hb op (List.mem_append_right _ (by simp))
    have hg₀ := goodSeq_append_right ops [op] hg
    obtain ⟨ihE, ihC⟩ := ih hb₀ hg₀
    rw [runTxOps_append]
    cases op with
    | storePending id₁ d₁ p₁ =>
      by_cases hch : d₁.marshalOk = true ∧ p₁ = true
      · obtain ⟨hm, hp⟩ := hch
        have hstep : (runTxOp (runTxOps emptyBuckets ops) (TxOp.storePending id₁ d₁ p₁)).1 =
            { runTxOps emptyBuckets ops with
              pending := alPut id₁.toJsonKey d₁.payload (runTxOps emptyBuckets ops).pending } := by
          simp [runTxOp, storePendingIntermediateTx_eq, hm, hp]
        rw [hstep]
        constructor
        · intro id hid
          by_cases hide : id = id₁
          · subst hide
            right
            cases hcf : inConfirmed { runTxOps emptyBuckets ops with
                pending := alPut id.toJsonKey d₁.payload (runTxOps emptyBuckets ops).pending } id
            · rfl
            · exfalso
              have hconf : inConfirmed (runTxOps emptyBuckets ops) id = true := hcf
              obtain ⟨d, p, dl, hmem, hsucc⟩ := ihC id hid hconf
              exact goodSeq_no_restage ops id d₁ p₁ hg d p dl hmem hsucc
          · have hpend : inPending { runTxOps emptyBuckets ops with
                pending := alPut id₁.toJsonKey d₁.payload (runTxOps emptyBuckets ops).pending } id =
                inPending (runTxOps emptyBuckets ops) id := by
              simp [inPending, alGet_alPut_ne _ _ _ _ (toJsonKey_ne _ _ hide)]
            have hcf : inConfirmed { runTxOps emptyBuckets ops with
                pending := alPut id₁.toJsonKey d₁.payload (runTxOps emptyBuckets ops).pending } id =
                inConfirmed (runTxOps emptyBuckets ops) id := rfl
            rw [hpend, hcf]
            exact ihE id hid
        · intro id hid hconf
          have hconf₀ : inConfirmed (runTxOps emptyBuckets ops) id = true := hconf
          obtain ⟨d, p, dl, hmem, hsucc⟩ := ihC id hid hconf₀
          exact ⟨d, p, dl, List.mem_append_left _ hmem, hsucc⟩
      · have hstep : (runTxOp (runTxOps emptyBuckets ops) (TxOp.storePending id₁ d₁ p₁)).1 =
            runTxOps emptyBuckets ops := by
          rcases not_and_or.mp hch with hm | hp
          · have hm₂ : d₁.marshalOk = false := by
              revert hm
              cases d₁.marshalOk <;> simp
            simp [runTxOp, storePendingIntermediateTx_eq, hm₂]
          · have hp₂ : p₁ = false := by
              revert hp
              cases p₁ <;> simp
            cases hm₃ : d₁.marshalOk <;>
              simp [runTxOp, storePendingIntermediateTx_eq, hp₂, hm₃]
        rw [hstep]
        refine ⟨ihE, fun id hid hconf => ?_⟩
        obtain ⟨d, p, dl, hmem, hsucc⟩ := ihC id hid hconf
        exact ⟨d, p, dl, List.mem_append_left _ hmem, hsucc⟩
    | promote id₁ d₁ p₁ dl₁ =>
      by_cases hs : (d₁.marshalOk && p₁ && dl₁) = true
      · have hstep : (runTxOp (runTxOps emptyBuckets ops) (TxOp.promote id₁ d₁ p₁ dl₁)).1 =
            { intermediate :=
                alPut id₁.toBytes d₁.payload (runTxOps emptyBuckets ops).intermediate,
              pending := alDel id₁.toJsonKey (runTxOps emptyBuckets ops).pending } := by
          simp [runTxOp, storeIntermediateTx_eq, hs]
        rw [hstep]
        constructor
        · intro id hid
          by_cases hide : id = id₁
          · subst hide
            left
            simp [inPending, alGet_alDel_self]
          · have hpend : (alGet id.toJsonKey
                (alDel id₁.toJsonKey (runTxOps emptyBuckets ops).pending)) =
                alGet id.toJsonKey (runTxOps emptyBuckets ops).pending :=
              alGet_alDel_ne _ _ _ (toJsonKey_ne _ _ hide)
            have hcf : (alGet id.toBytes
                (alPut id₁.toBytes d₁.payload (runTxOps emptyBuckets ops).intermediate)) =
                alGet id.toBytes (runTxOps emptyBuckets ops).intermediate :=
              alGet_alPut_ne _ _ _ _ (toBytes_ne _ _ hid hbop hide)
            simp only [inPending, inConfirmed] at ihE ⊢
            rw [hpend, hcf]
            exact ihE id hid
        · intro id hid hconf
          by_cases hide : id = id₁
          · subst hide
            exact ⟨d₁, p₁, dl₁, List.mem_append_right _ (by simp), hs⟩
          · have hcf : (alGet id.toBytes
                (alPut id₁.toBytes d₁.payload (runTxOps emptyBuckets ops).intermediate)) =
                alGet id.toBytes (runTxOps emptyBuckets ops).intermediate :=
              alGet_alPut_ne _ _ _ _ (toBytes_ne _ _ hid hbop hide)
            simp only [inConfirmed] at hconf
            rw [hcf] at hconf
            obtain ⟨d, p, dl, hmem, hsucc⟩ := ihC id hid hconf
            exact ⟨d, p, dl, List.mem_append_left _ hmem, hsucc⟩
      · have hstep : (runTxOp (runTxOps emptyBuckets ops) (TxOp.promote id₁ d₁ p₁ dl₁)).1 =
            runTxOps emptyBuckets ops := by
          simp [runTxOp, storeIntermediateTx_eq, hs]
        rw [hstep]
        refine ⟨ihE, fun id hid hconf => ?_⟩
        obtain ⟨d, p, dl, hmem, hsucc⟩ := ihC id hid hconf
        exact ⟨d, p, dl, List.mem_append_left _ hmem, hsucc⟩

/-- C2 counterexample: the at-most-one-bucket invariant does NOT hold for
every sequence of operations.  Calling `StoreIntermediateTx` (promote) for
an id and then `StorePendingIntermediateTx` for the same id leaves the id's
entry in BOTH buckets: promotion only deletes the pending key, it does not
guard later re-insertions. -/
theorem intermediateTx_both_buckets_counterexample :
    inPending (runTxOps emptyBuckets
        [TxOp.promote ⟨1, "a"⟩ ⟨"t1", true⟩ true true,
         TxOp.storePending ⟨1, "a"⟩ ⟨"t2", true⟩ true]) ⟨1, "a"⟩ = true ∧
      inConfirmed (runTxOps emptyBuckets
        [TxOp.promote ⟨1, "a"⟩ ⟨"t1", true⟩ true true,
         TxOp.storePending ⟨1, "a"⟩ ⟨"t2", true⟩ true]) ⟨1, "a"⟩ = true := by
  decide

/-- C2 (amended): (1) for every sequence of StorePendingIntermediateTx /
StoreIntermediateTx operations from the freshly initialised storage in which
no StorePendingIntermediateTx for an id follows a successful
StoreIntermediateTx for that same id, every id's entry is present in at most
one of the pending and confirmed buckets; (2) on any error during promotion
neither sub-step is visible (the state is unchanged); (3) a successful
promotion leaves the entry in the confirmed bucket and removes the id's key
from the pending bucket. -/
theorem intermediateTx_exclusive_amended :
    (∀ ops : List TxOp, (∀ op ∈ ops, op.opId.timepoint < 2 ^ 64) → goodSeq ops →
        ∀ id : ActivityID, id.timepoint < 2 ^ 64 →
          inPending (runTxOps emptyBuckets ops) id = false ∨
          inConfirmed (runTxOps emptyBuckets ops) id = false) ∧
    (∀ st id data putOk delOk st₂ e,
        storeIntermediateTx st id data putOk delOk = (st₂, some e) → st₂ = st) ∧
    (∀ st id data putOk delOk st₂,
        storeIntermediateTx st id data putOk delOk = (st₂, none) →
          inConfirmed st₂ id = true ∧ inPending st₂ id = false) := by
  refine ⟨fun ops hb hg => (runTxOps_exclusive_aux ops hb hg).1, ?_, ?_⟩
  · intro st id data putOk delOk st₂ e heq
    rw [storeIntermediateTx_eq] at heq
    by_cases hs : (data.marshalOk && putOk && delOk) = true
    · rw [if_pos hs] at heq
      exact absurd (congrArg Prod.snd heq) (by simp)
    · rw [if_neg hs] at heq
      exact (congrArg Prod.fst heq).symm
  · intro st id data putOk delOk st₂ heq
    rw [storeIntermediateTx_eq] at heq
    by_cases hs : (data.marshalOk && putOk && delOk) = true
    · rw [if_pos hs] at heq
      injection heq with h₁ h₂
      rw [← h₁]
      constructor
      · simp [inConfirmed, alGet_alPut_self]
      · simp [inPending, alGet_alDel_self]
    · rw [if_neg hs] at heq
      exact absurd (congrArg Prod.snd heq) (by simp)

/-- Witness for the amended C2 theorem: instantiates (1) at a well-formed
stage-then-promote history, (2) at a promotion whose entry fails to
serialize, and (3) at a successful promotion, discharging every hypothesis
on concrete inputs. -/
theorem intermediateTx_exclusive_amended_witness :
    (inPending (runTxOps emptyBuckets
        [TxOp.storePending ⟨2, "b"⟩ ⟨"t", true⟩ true,
         TxOp.promote ⟨2, "b"⟩ ⟨"t", true⟩ true true]) ⟨2, "b"⟩ = false ∨
      inConfirmed (runTxOps emptyBuckets
        [TxOp.storePending ⟨2, "b"⟩ ⟨"t", true⟩ true,
         TxOp.promote ⟨2, "b"⟩ ⟨"t", true⟩ true true]) ⟨2, "b"⟩ = false) ∧
    (emptyBuckets = emptyBuckets) ∧
    (inConfirmed ⟨[((⟨2, "b"⟩ : ActivityID).toBytes, "t")], []⟩ ⟨2, "b"⟩ = true ∧
      inPending ⟨[((⟨2, "b"⟩ : ActivityID).toBytes, "t")], []⟩ ⟨2, "b"⟩ = false) := by
  refine ⟨?_, ?_, ?_⟩
  · exact intermediateTx_exclusive_amended.1
      [TxOp.storePending ⟨2, "b"⟩ ⟨"t", true⟩ true,
       TxOp.promote ⟨2, "b"⟩ ⟨"t", true⟩ true true]
      (by decide) (by simp [goodSeq]) ⟨2, "b"⟩ (by decide)
  · exact intermediateTx_exclusive_amended.2.1 emptyBuckets ⟨2, "b"⟩ ⟨"t", false⟩ true true
      emptyBuckets "marshal error" rfl
  · exact intermediateTx_exclusive_amended.2.2 emptyBuckets ⟨2, "b"⟩ ⟨"t", true⟩ true true
      ⟨[((⟨2, "b"⟩ : ActivityID).toBytes, "t")], []⟩ rfl

/-!
## Postgres fetch-data storage (versioned snapshot store)

The `fetch_data` table holds append-only snapshot records: a SERIAL primary
key `id`, a `created` timestamp, the payload JSON and a category enum.
`storeFetchData` inserts a row with `created = MillisToTime(timepoint)`;
`currentVersion` runs
`SELECT id FROM fetch_data WHERE created <= $1 and type = $2 ORDER BY created DESC LIMIT 1`.
Timestamps are modelled by their millisecond epoch value (`MillisToTime` is
order-preserving and injective, so SQL comparisons on the TIMESTAMPTZ column
coincide with comparisons of the millisecond values).
-/

/-- The `fetch_data_type` enum of the schema: price, rate, auth_data, gold,
btc, usd. -/
inductive FetchDataType where
  | price
  | rate
  | authData
  | gold
  | btc
  | usd
  deriving DecidableEq, Repr

/-- One row of the `fetch_data` table. -/
structure FetchRow where
  id : Nat
  created : Nat
  dtype : FetchDataType
  data : String
  deriving DecidableEq, Repr

/-- The `fetch_data` table together with its SERIAL sequence counter. -/
structure FetchTable where
  rows : List FetchRow
  nextId : Nat
  deriving DecidableEq, Repr

/-- A freshly created `fetch_data` table: no rows, SERIAL starts at 1. -/
def emptyFetchTable : FetchTable := ⟨[], 1⟩

/-- Model of `common.MillisToTime`: millisecond epoch to TIMESTAMPTZ.  The
conversion is order-preserving and injective, so the timestamp is modelled
by the millisecond value itself. -/
def millisToTime (t : Nat) : Nat := t

/-- Model of `PostgresStorage.storeFetchData`: INSERT one row with
`created = MillisToTime(timepoint)`; SERIAL assigns the next id.  The
payload is supplied already serialized. -/
def storeFetchData (st : FetchTable) (dataJSON : String) (dtype : FetchDataType)
    (timepoint : Nat) : FetchTable :=
  { rows := st.rows ++ [⟨st.nextId, millisToTime timepoint, dtype, dataJSON⟩],
    nextId := st.nextId + 1 }

/-- The WHERE clause of `currentVersion`:
`created <= MillisToTime(timepoint) and type = dtype`. -/
def fetchEligible (dtype : FetchDataType) (timepoint : Nat) (r : FetchRow) : Bool :=
  r.created ≤ millisToTime timepoint && r.dtype == dtype

/-- Model of `ORDER BY created DESC LIMIT 1`: some row with maximal
`created` among the given rows.  SQL leaves the choice among `created` ties
unspecified; the model deterministically keeps the earliest such row. -/
def rowLatest : List FetchRow → Option FetchRow
  | [] => none
  | r :: rest =>
    match rowLatest rest with
    | none => some r
    | some m => if r.created < m.created then some m else some r

/-- Model of `PostgresStorage.currentVersion`: the id of the row selected by
`SELECT id FROM fetch_data WHERE created <= $1 and type = $2 ORDER BY
created DESC LIMIT 1`, or the no-version error when `sql.ErrNoRows`. -/
def currentVersion (st : FetchTable) (dtype : FetchDataType) (timepoint : Nat) :
    Except String Nat :=
  match rowLatest (st.rows.filter (fetchEligible dtype timepoint)) with
  | none => Except.error "there is no version at timestamp"
  | some r => Except.ok r.id

/-- Decidable equality for `Except` results, used to evaluate the model on
concrete inputs. -/
instance {ε α : Type} [DecidableEq ε] [DecidableEq α] : DecidableEq (Except ε α)
  | .ok a, .ok b =>
    if h : a = b then .isTrue (by rw [h]) else .isFalse (by intro hc; cases hc; exact h rfl)
  | .error a, .error b =>
    if h : a = b then .isTrue (by rw [h]) else .isFalse (by intro hc; cases hc; exact h rfl)
  | .ok _, .error _ => .isFalse (by intro hc; cases hc)
  | .error _, .ok _ => .isFalse (by intro hc; cases hc)

/-- Maximum of a list of naturals, none when empty. -/
def natsMax : List Nat → Option Nat
  | [] => none
  | n :: rest =>
    match natsMax rest with
    | none => some n
    | some m => some (Nat.max n m)

/-- The claim's reading of CurrentVersion, following the spec's words: the
greatest version id among the category's records with
`created <= timestamp`. -/
def specGreatestVersion (st : FetchTable) (dtype : FetchDataType) (timepoint : Nat) :
    Option Nat :=
  natsMax ((st.rows.filter (fetchEligible dtype timepoint)).map (fun r => r.id))

theorem rowLatest_eq_none_iff (l : List FetchRow) : rowLatest l = none ↔ l = [] := by
  cases l with
  | nil => simp [rowLatest]
  | cons r rest =>
    simp only [rowLatest]
    cases rowLatest rest with
    | none => simp
    | some m =>
      constructor
      · intro h
        by_cases hc : r.created < m.created <;> simp [hc] at h
      · intro h
        simp at h

theorem rowLatest_spec (l : List FetchRow) (r : FetchRow) (h : rowLatest l = some r) :
    r ∈ l ∧ ∀ r₂ ∈ l, r₂.created ≤ r.created := by
  induction l generalizing r with
  | nil => simp [rowLatest] at h
  | cons hd rest ih =>
    cases hm : rowLatest rest with
    | none =>
      have hrest : rest = [] := (rowLatest_eq_none_iff rest).mp hm
      subst hrest
      simp [rowLatest] at h
      subst h
      simp
    | some m =>
      simp only [rowLatest, hm] at h
      obtain ⟨hmem, hmax⟩ := ih m hm
      by_cases hc : hd.created < m.created
      · rw [if_pos hc] at h
        cases h
        refine ⟨List.mem_cons_of_mem _ hmem, ?_⟩
        intro r₂ hr₂
        rcases List.mem_cons.mp hr₂ with heq | hmem₂
        · subst heq
          omega
        · exact hmax r₂ hmem₂
      · rw [if_neg hc] at h
        cases h
        refine ⟨List.mem_cons_self _ _, ?_⟩
        intro r₂ hr₂
        rcases List.mem_cons.mp hr₂ with heq | hmem₂
        · subst heq
          omega
        · have := hmax r₂ hmem₂
          omega

/-- C3 counterexample: two price snapshots stored out of timestamp order
(first at `created = 30` receiving id 1, then at `created = 10` receiving id
2).  Querying at timestamp 40, the code's `ORDER BY created DESC LIMIT 1`
returns id 1, while the greatest version id among eligible records is 2: the
returned id is not the greatest eligible id. -/
theorem currentVersion_not_greatest_counterexample :
    currentVersion (storeFetchData (storeFetchData emptyFetchTable "P1" FetchDataType.price 30)
        "P2" FetchDataType.price 10) FetchDataType.price 40 = Except.ok 1 ∧
      specGreatestVersion (storeFetchData (storeFetchData emptyFetchTable "P1"
        FetchDataType.price 30) "P2" FetchDataType.price 10) FetchDataType.price 40 = some 2 := by
  decide

/-- C3 (amended): `currentVersion(category, timestamp)` fails with the
no-version error exactly when no record of the category has
`created <= timestamp`, and otherwise returns the id of an eligible record
whose `created` is maximal among eligible records (the most recently created
record; under in-order insertion this coincides with the greatest id, but in
general the selection is by `created`, not by id). -/
theorem currentVersion_latest_created (st : FetchTable) (dtype : FetchDataType)
    (timepoint : Nat) :
    (currentVersion st dtype timepoint = Except.error "there is no version at timestamp" ↔
      st.rows.filter (fetchEligible dtype timepoint) = []) ∧
    (∀ v, currentVersion st dtype timepoint = Except.ok v →
      ∃ r ∈ st.rows, fetchEligible dtype timepoint r = true ∧ r.id = v ∧
        ∀ r₂ ∈ st.rows, fetchEligible dtype timepoint r₂ = true → r₂.created ≤ r.created) := by
  constructor
  · rw [← rowLatest_eq_none_iff]
    unfold currentVersion
    cases rowLatest (st.rows.filter (fetchEligible dtype timepoint)) <;> simp
  · intro v hv
    unfold currentVersion at hv
    cases hm : rowLatest (st.rows.filter (fetchEligible dtype timepoint)) with
    | none => rw [hm] at hv; simp at hv
    | some r =>
      rw [hm] at hv
      simp only [Except.ok.injEq] at hv
      obtain ⟨hmem, hmax⟩ := rowLatest_spec _ _ hm
      obtain ⟨hmem₂, helig⟩ := List.mem_filter.mp hmem
      refine ⟨r, hmem₂, helig, hv, ?_⟩
      intro r₂ hr₂ helig₂
      exact hmax r₂ (List.mem_filter.mpr ⟨hr₂, helig₂⟩)

/-- Witness for the amended C3 theorem, on the spec's own example: price
records created at 10, 20 and 30 (ids 1, 2, 3); a query at 25 resolves to
the record created at 20 (id 2), and a query at 5 finds no eligible
record. -/
theorem currentVersion_latest_created_witness :
    (∃ r ∈ (storeFetchData (storeFetchData (storeFetchData emptyFetchTable "A"
          FetchDataType.price 10) "B" FetchDataType.price 20) "C"
          FetchDataType.price 30).rows,
        fetchEligible FetchDataType.price 25 r = true ∧ r.id = 2 ∧
          ∀ r₂ ∈ (storeFetchData (storeFetchData (storeFetchData emptyFetchTable "A"
              FetchDataType.price 10) "B" FetchDataType.price 20) "C"
              FetchDataType.price 30).rows,
            fetchEligible FetchDataType.price 25 r₂ = true → r₂.created ≤ r.created) ∧
    (storeFetchData (storeFetchData (storeFetchData emptyFetchTable "A"
        FetchDataType.price 10) "B" FetchDataType.price 20) "C"
        FetchDataType.price 30).rows.filter (fetchEligible FetchDataType.price 5) = [] :=
  ⟨(currentVersion_latest_created (storeFetchData (storeFetchData (storeFetchData
      emptyFetchTable "A" FetchDataType.price 10) "B" FetchDataType.price 20) "C"
      FetchDataType.price 30) FetchDataType.price 25).2 2 (by decide),
   (currentVersion_latest_created (storeFetchData (storeFetchData (storeFetchData
      emptyFetchTable "A" FetchDataType.price 10) "B" FetchDataType.price 20) "C"
      FetchDataType.price 30) FetchDataType.price 5).1.mp (by decide)⟩

/-!
## Postgres activity ledger

The `activity` table has a SERIAL primary key, a NON-unique index on
`(timepoint, eid)`, an `is_pending` flag and the record payload as JSONB.
`Record` is a plain INSERT; `UpdateActivity` first SELECTs by
`(timepoint, eid)` (treating `sql.ErrNoRows` as a no-op success) and then,
only when the supplied record is no longer pending, UPDATEs `is_pending` and
`data` on every row matching the id.
-/

/-- Modelled from the spec: `common.ActivityRecord` — the ledger entry with
its `isPending` flag; action, destination, params, result, the two status
strings and the timestamp are carried as opaque strings.  `json.Marshal` on
these value types cannot fail, so serialization is modelled by the record
value itself (the JSON encoding of such a record is injective and total). -/
structure ActivityRecord where
  action : String
  destination : String
  params : String
  result : String
  exchangeStatus : String
  miningStatus : String
  isPending : Bool
  timestamp : String
  deriving DecidableEq, Repr

/-- Modelled from the spec: `common.NewActivityRecord` as invoked by
`Record` — a fresh, still-pending ledger entry whose timestamp is the
decimal rendering of the timepoint. -/
def newActivityRecord (action destination params result estatus mstatus : String)
    (timepoint : Nat) : ActivityRecord :=
  ⟨action, destination, params, result, estatus, mstatus, true, toString timepoint⟩

/-- One row of the `activity` table. -/
structure ActivityRow where
  rid : Nat
  timepoint : Nat
  eid : String
  created : Nat
  isPending : Bool
  data : ActivityRecord
  deriving DecidableEq, Repr

/-- The `activity` table together with its SERIAL sequence counter. -/
structure ActivityTable where
  rows : List ActivityRow
  nextId : Nat
  deriving DecidableEq, Repr

/-- A freshly created `activity` table. -/
def emptyActivityTable : ActivityTable := ⟨[], 1⟩

/-- The `WHERE timepoint = $1 AND eid = $2` predicate shared by the
activity queries. -/
def matchesId (id : ActivityID) (r : ActivityRow) : Bool :=
  r.timepoint == id.timepoint && r.eid == id.eid

/-- Model of `PostgresStorage.Record`:
`INSERT INTO activity (created, data, is_pending, timepoint, eid)` with
`is_pending = true`.  The `(timepoint, eid)` index of the schema is NOT
unique, so the INSERT succeeds unconditionally — even when a row with the
same id already exists — and SERIAL assigns a fresh primary key. -/
def recordActivity (st : ActivityTable) (action : String) (id : ActivityID)
    (destination params result estatus mstatus : String) (timepoint : Nat) :
    ActivityTable × Option String :=
  let entry := newActivityRecord action destination params result estatus mstatus timepoint
  ({ rows := st.rows ++
      [⟨st.nextId, id.timepoint, id.eid, millisToTime timepoint, true, entry⟩],
     nextId := st.nextId + 1 }, none)

/-- The overwrite applied by `UpdateActivity`'s UPDATE statement to every
row matching the id: `is_pending := false`, `data := act`. -/
def settleRow (id : ActivityID) (act : ActivityRecord) (r : ActivityRow) : ActivityRow :=
  if matchesId id r then { r with isPending := false, data := act } else r

/-- Model of `PostgresStorage.UpdateActivity`: SELECT by `(timepoint, eid)`
— `sql.ErrNoRows` is a no-op success; `json.Marshal(act)` is total on
activity records; then, only when `act` is no longer pending, UPDATE
`is_pending` and `data` on every row matching the id. -/
def updateActivity (st : ActivityTable) (id : ActivityID) (act : ActivityRecord) :
    ActivityTable × Option String :=
  if st.rows.any (matchesId id) then
    if act.isPending then (st, none)
    else ({ st with rows := st.rows.map (settleRow id act) }, none)
  else (st, none)

theorem matchesId_settleRow (id id₂ : ActivityID) (act : ActivityRecord) (r : ActivityRow) :
    matchesId id₂ (settleRow id act r) = matchesId id₂ r := by
  unfold settleRow
  by_cases h : matchesId id r
  · rw [if_pos h]
    rfl
  · rw [if_neg h]

theorem settleRow_settleRow (id : ActivityID) (act : ActivityRecord) (r : ActivityRow) :
    settleRow id act (settleRow id act r) = settleRow id act r := by
  unfold settleRow
  by_cases h : matchesId id r
  · rw [if_pos h]
    have h₂ : matchesId id ({ r with isPending := false, data := act }) = true := h
    rw [if_pos h₂]
  · rw [if_neg h, if_neg h]

/-- C4 counterexample: recording the same ActivityID twice — second call
returns a nil error (no conflict is surfaced) and the ledger ends up with
TWO rows for `(timepoint 500, eid "dep-1")` instead of rejecting the
duplicate. -/
theorem recordActivity_duplicate_counterexample :
    ((recordActivity (recordActivity emptyActivityTable "deposit" ⟨500, "dep-1"⟩
        "huobi" "p" "r" "submitted" "" 500).1
        "deposit" ⟨500, "dep-1"⟩ "huobi" "p" "r" "submitted" "" 500).2 = none) ∧
      ((recordActivity (recordActivity emptyActivityTable "deposit" ⟨500, "dep-1"⟩
        "huobi" "p" "r" "submitted" "" 500).1
        "deposit" ⟨500, "dep-1"⟩ "huobi" "p" "r" "submitted" "" 500).1.rows.filter
          (matchesId ⟨500, "dep-1"⟩)).length = 2 := by
  decide

/-- C4 (amended): `Record` never fails with a conflict error: it returns a
nil error for every input and unconditionally appends one new pending row
keyed by the id, so a second `Record` with an already-present id silently
inserts a second row (the schema's `(timepoint, eid)` index is not
unique) instead of surfacing a conflict. -/
theorem recordActivity_no_conflict (st : ActivityTable) (action : String) (id : ActivityID)
    (destination params result estatus mstatus : String) (timepoint : Nat) :
    ((recordActivity st action id destination params result estatus mstatus timepoint).2
        = none) ∧
    ((recordActivity st action id destination params result estatus mstatus
        timepoint).1.rows.filter (matchesId id)).length
      = (st.rows.filter (matchesId id)).length + 1 := by
  constructor
  · rfl
  · simp [recordActivity, List.filter_append, matchesId]

/-- C5: `UpdateActivity` always returns a nil error; when no row matches the
id it changes nothing (ErrNoRows is a defined no-op); when the supplied
record is still pending it changes nothing; and when a matching row exists
and the supplied record is settled, every row matching the id gets its
payload overwritten by the supplied record and its pending flag set to
false. -/
theorem updateActivity_cases (st : ActivityTable) (id : ActivityID) (act : ActivityRecord) :
    ((updateActivity st id act).2 = none) ∧
    ((∀ r ∈ st.rows, matchesId id r = false) → (updateActivity st id act).1 = st) ∧
    (act.isPending = true → (updateActivity st id act).1 = st) ∧
    ((∃ r ∈ st.rows, matchesId id r = true) → act.isPending = false →
      ((updateActivity st id act).1.rows = st.rows.map (settleRow id act) ∧
        ∀ r₂ ∈ (updateActivity st id act).1.rows, matchesId id r₂ = true →
          r₂.isPending = false ∧ r₂.data = act)) := by
  refine ⟨?_, ?_, ?_, ?_⟩
  · unfold updateActivity
    by_cases h₁ : st.rows.any (matchesId id)
    · rw [if_pos h₁]
      by_cases h₂ : act.isPending
      · rw [if_pos h₂]
      · rw [if_neg h₂]
    · rw [if_neg h₁]
  · intro hall
    have hany : st.rows.any (matchesId id) = false := by
      simp only [List.any_eq_false]
      intro r hr
      simp [hall r hr]
    simp [updateActivity, hany]
  · intro hp
    by_cases h₁ : st.rows.any (matchesId id) <;> simp [updateActivity, h₁, hp]
  · rintro ⟨r, hr, hmr⟩ hp
    have hany : st.rows.any (matchesId id) = true := List.any_eq_true.mpr ⟨r, hr, hmr⟩
    have hrows : (updateActivity st id act).1.rows = st.rows.map (settleRow id act) := by
      simp [updateActivity, hany, hp]
    refine ⟨hrows, ?_⟩
    intro r₂ hr₂ hm₂
    rw [hrows] at hr₂
    obtain ⟨r₀, hr₀, heq⟩ := List.mem_map.mp hr₂
    subst heq
    rw [matchesId_settleRow] at hm₂
    simp [settleRow, hm₂]

/-- A small concrete ledger: one pending deposit activity recorded under
`(timepoint 500, eid "dep-1")`. -/
def exampleLedger : ActivityTable :=
  (recordActivity emptyActivityTable "deposit" ⟨500, "dep-1"⟩ "huobi" "p" "r"
    "submitted" "" 500).1

/-- A settled payload for the example activity. -/
def settledRecordEx : ActivityRecord :=
  ⟨"deposit", "huobi", "p", "r", "done", "mined", false, "500"⟩

/-- A still-pending payload for the example activity. -/
def pendingRecordEx : ActivityRecord :=
  ⟨"deposit", "huobi", "p", "r", "submitted", "", true, "500"⟩

/-- Witness for C5: instantiates the absent-id no-op at an id that matches
no row, the still-pending no-op, and the settled overwrite on the example
ledger. -/
theorem updateActivity_cases_witness :
    ((updateActivity exampleLedger ⟨9, "zz"⟩ settledRecordEx).1 = exampleLedger) ∧
    ((updateActivity exampleLedger ⟨500, "dep-1"⟩ pendingRecordEx).1 = exampleLedger) ∧
    ((updateActivity exampleLedger ⟨500, "dep-1"⟩ settledRecordEx).1.rows =
        exampleLedger.rows.map (settleRow ⟨500, "dep-1"⟩ settledRecordEx) ∧
      ∀ r₂ ∈ (updateActivity exampleLedger ⟨500, "dep-1"⟩ settledRecordEx).1.rows,
        matchesId ⟨500, "dep-1"⟩ r₂ = true →
          r₂.isPending = false ∧ r₂.data = settledRecordEx) :=
  ⟨(updateActivity_cases exampleLedger ⟨9, "zz"⟩ settledRecordEx).2.1 (by decide),
   (updateActivity_cases exampleLedger ⟨500, "dep-1"⟩ pendingRecordEx).2.2.1 rfl,
   (updateActivity_cases exampleLedger ⟨500, "dep-1"⟩ settledRecordEx).2.2.2 (by decide) rfl⟩

/-- C6: with a settled payload (`isPending = false`), a second
`UpdateActivity` call with the same id and payload leaves the table exactly
as after the first call and returns a nil error. -/
theorem updateActivity_settled_idempotent (st : ActivityTable) (id : ActivityID)
    (act : ActivityRecord) (h : act.isPending = false) :
    updateActivity (updateActivity st id act).1 id act =
      ((updateActivity st id act).1, none) := by
  by_cases hany : st.rows.any (matchesId id)
  · have h₁ : (updateActivity st id act).1 =
        { st with rows := st.rows.map (settleRow id act) } := by
      simp [updateActivity, hany, h]
    rw [h₁]
    have hany₂ : (st.rows.map (settleRow id act)).any (matchesId id) = true := by
      rw [List.any_map]
      have hcomp : (matchesId id ∘ settleRow id act) = matchesId id :=
        funext fun r => matchesId_settleRow id id act r
      rw [hcomp]
      exact hany
    simp only [updateActivity, hany₂, if_pos, h, Bool.false_eq_true, if_false,
      Prod.mk.injEq, and_true]
    rw [List.map_map]
    have : { st with rows := List.map (settleRow id act ∘ settleRow id act) st.rows } =
        { st with rows := List.map (settleRow id act) st.rows } := by
      have hmaps : List.map (settleRow id act ∘ settleRow id act) st.rows =
          List.map (settleRow id act) st.rows :=
        List.map_congr_left fun r _ => settleRow_settleRow id act r
      rw [hmaps]
    rw [this]
  · have h₁ : (updateActivity st id act).1 = st := by simp [updateActivity, hany]
    rw [h₁]
    simp [updateActivity, hany]

/-- Witness for C6: the settled update applied twice to the example ledger. -/
theorem updateActivity_settled_idempotent_witness :
    updateActivity (updateActivity exampleLedger ⟨500, "dep-1"⟩ settledRecordEx).1
        ⟨500, "dep-1"⟩ settledRecordEx =
      ((updateActivity exampleLedger ⟨500, "dep-1"⟩ settledRecordEx).1, none) :=
  updateActivity_settled_idempotent exampleLedger ⟨500, "dep-1"⟩ settledRecordEx rfl

/-!
## Bolt trade-history storage

`GetTradeHistory(fromTime, toTime)` first checks
`toTime - fromTime > maxGetTradeHistory` — a Go uint64 subtraction, which
wraps modulo `2 ^ 64` — and returns an empty `ExchangeTradeHistory` with a
validation error before opening any read transaction when the check fires;
otherwise it scans every pair sub-bucket for keys between the decimal
renderings of `fromTime` and `toTime` in byte order.
-/

/-- Go uint64 subtraction `a - b`, wrapping modulo `2 ^ 64` (operands are
uint64 values, hence below `2 ^ 64`). -/
def sub64 (a b : Nat) : Nat := (a + 2 ^ 64 - b) % 2 ^ 64

/-- The hard maximum window of the trade-history scan:
`maxGetTradeHistory uint64 = 3 * 86400000` (3 days in milliseconds). -/
def maxGetTradeHistory : Nat := 3 * 86400000

/-- The validation error returned for too-broad ranges (message as in the
source). -/
def tradeRangeErr : String :=
  "time range is too broad, it must be smaller or equal to 3 days (miliseconds)"

/-- Modelled from the spec: `common.TradeHistory`, one trade record; the
source uses its `Timestamp` (uint64) and `ID` (string) to build bucket
keys.  The remaining fields are opaque. -/
structure TradeHistory where
  timestamp : Nat
  tradeId : String
  rest : String
  deriving DecidableEq, Repr

/-- Lexicographic byte order, as computed by `bytes.Compare(a, b) <= 0`. -/
def bytesLeList : List Nat → List Nat → Bool
  | [], _ => true
  | _ :: _, [] => false
  | x :: xs, y :: ys => if x < y then true else if y < x then false else bytesLeList xs ys

/-- The bytes of a string key. -/
def strBytes (s : String) : List Nat := s.toList.map Char.toNat

/-- String comparison in byte order (`bytes.Compare(a, b) <= 0`). -/
def bytesLe (a b : String) : Bool := bytesLeList (strBytes a) (strBytes b)

/-- The `trade_history` bucket: one sub-bucket per pair id (uint64), each
mapping the key `FormatUint(Timestamp, 10) + ID` to the stored record
(values round-trip through JSON, so they are modelled by the record
itself). -/
def TradeDB : Type := List (Nat × List (String × TradeHistory))

/-- The read transaction of `GetTradeHistory`: for every pair sub-bucket,
the cursor seeks the decimal rendering of `fromTime` and collects entries
whose key is at most the decimal rendering of `toTime` in byte order
(`c.Seek(min)` .. `bytes.Compare(pairKey, max) <= 0`). -/
def scanTradeHistory (db : TradeDB) (fromTime toTime : Nat) :
    List (Nat × List TradeHistory) :=
  db.map (fun pb =>
    (pb.1, (pb.2.filter (fun e =>
      bytesLe (toString fromTime) e.1 && bytesLe e.1 (toString toTime))).map (fun e => e.2)))

/-- Model of `BoltStorage.GetTradeHistory`: the wrapped-subtraction range
guard, then the scan. -/
def getTradeHistory (db : TradeDB) (fromTime toTime : Nat) :
    List (Nat × List TradeHistory) × Option String :=
  if sub64 toTime fromTime > maxGetTradeHistory then ([], some tradeRangeErr)
  else (scanTradeHistory db fromTime toTime, none)

/-- C7: for uint64 inputs, when the wrapped difference `toTime - fromTime`
exceeds the 3-day maximum (259200000 ms), `GetTradeHistory` fails with the
validation error and an empty result without reading the store (the result
is the same for every store content); when the difference is at or under the
maximum, the scan proceeds and no error is returned. -/
theorem getTradeHistory_range_guard (db : TradeDB) (fromTime toTime : Nat)
    (hf : fromTime < 2 ^ 64) (ht : toTime < 2 ^ 64) :
    (sub64 toTime fromTime > maxGetTradeHistory →
      getTradeHistory db fromTime toTime = ([], some tradeRangeErr)) ∧
    (sub64 toTime fromTime ≤ maxGetTradeHistory →
      getTradeHistory db fromTime toTime = (scanTradeHistory db fromTime toTime, none)) := by
  constructor
  · intro h
    simp [getTradeHistory, h]
  · intro h
    have h₂ : ¬ sub64 toTime fromTime > maxGetTradeHistory := by omega
    simp [getTradeHistory, h₂]

/-- Witness for C7: a 3-days-plus-one-millisecond window is rejected on any
store; a 5 ms window proceeds to the scan. -/
theorem getTradeHistory_range_guard_witness :
    getTradeHistory ([] : TradeDB) 0 259200001 = ([], some tradeRangeErr) ∧
      getTradeHistory ([] : TradeDB) 0 5 = (scanTradeHistory ([] : TradeDB) 0 5, none) :=
  ⟨(getTradeHistory_range_guard ([] : TradeDB) 0 259200001 (by decide)
      (by decide)).1 (by decide),
   (getTradeHistory_range_guard ([] : TradeDB) 0 5 (by decide) (by decide)).2 (by decide)⟩

/-- C10: an inverted range (`fromTime > toTime`, with the gap small enough
that the wrapped difference still exceeds the maximum) is rejected by the
range guard with the validation error and an empty history: the unsigned
subtraction wraps modulo `2 ^ 64` to a huge value, so an inverted range is
never scanned. -/
theorem getTradeHistory_inverted_range (db : TradeDB) (fromTime toTime : Nat)
    (hf : fromTime < 2 ^ 64) (hlt : toTime < fromTime)
    (hgap : fromTime - toTime < 2 ^ 64 - maxGetTradeHistory) :
    getTradeHistory db fromTime toTime = ([], some tradeRangeErr) := by
  have h : sub64 toTime fromTime > maxGetTradeHistory := by
    unfold sub64 maxGetTradeHistory at *
    have hv : toTime + 2 ^ 64 - fromTime < 2 ^ 64 := by omega
    rw [Nat.mod_eq_of_lt hv]
    omega
  simp [getTradeHistory, h]

/-- Witness for C10: `GetTradeHistory(10, 0)` wraps to `2 ^ 64 - 10` and is
rejected. -/
theorem getTradeHistory_inverted_range_witness :
    getTradeHistory ([] : TradeDB) 10 0 = ([], some tradeRangeErr) :=
  getTradeHistory_inverted_range ([] : TradeDB) 10 0 (by decide) (by decide) (by decide)

/-!
## Export of expired auth data

`ExportExpiredAuthData(timepoint, filePath)` selects all `auth_data` rows
with `created < MillisToTime(timepoint - authDataExpiredDuration)` (uint64
subtraction) and writes each payload followed by a newline to the output
file.  The payload write's error is DISCARDED (`_, _ = outFile.Write(data)`);
only the newline write's error is checked.
-/

/-- Modelled from the spec: `authDataExpiredDuration`, the auth-snapshot
retention in milliseconds (a constant of the common package, not among the
sources here; its exact value is immaterial to the claims). -/
def authDataExpiredDuration : Nat := 10 * 86400000

/-- The export sink (the created file): the byte chunks successfully
written so far, plus the oracle outcomes of the successive `Write` calls
(`true` = the write succeeds; an exhausted mask means the write
succeeds). -/
structure FileSink where
  written : List String
  failMask : List Bool
  deriving DecidableEq, Repr

/-- One `outFile.Write` call against the sink. -/
def sinkWrite (sink : FileSink) (s : String) : FileSink × Option String :=
  match sink.failMask with
  | [] => ({ sink with written := sink.written ++ [s] }, none)
  | ok :: rest =>
    if ok then ({ written := sink.written ++ [s], failMask := rest }, none)
    else ({ sink with failMask := rest }, some "write error")

/-- The row loop of `ExportExpiredAuthData`: write the payload (error
DISCARDED, as in `_, _ = outFile.Write(data)`), write the newline (error
checked, `return 0, err`), count the row. -/
def exportRows (sink : FileSink) (count : Nat) : List String → (Nat × Option String) × FileSink
  | [] => ((count, none), sink)
  | d :: rest =>
    let w₁ := sinkWrite sink d
    let w₂ := sinkWrite w₁.1 "\n"
    match w₂.2 with
    | some e => ((0, some e), w₂.1)
    | none => exportRows w₂.1 (count + 1) rest

/-- Model of `PostgresStorage.ExportExpiredAuthData`: select the expired
auth rows and stream them through `exportRows`. -/
def exportExpiredAuthData (tbl : FetchTable) (timepoint : Nat) (sink : FileSink) :
    (Nat × Option String) × FileSink :=
  let cutoff := millisToTime (sub64 timepoint authDataExpiredDuration)
  let expired := tbl.rows.filter (fun r =>
    r.dtype == FetchDataType.authData && decide (r.created < cutoff))
  exportRows sink 0 (expired.map (fun r => r.data))

/-- C8 refuted by evaluation, at the two named operations.  (1)
`StorePendingIntermediateTx` with a TXEntry whose serialization fails
returns a NIL error and stores nothing: the marshal-failure branch returns
the outer `err` variable, which is still nil.  (2) `ExportExpiredAuthData`
over one expired auth row, with the payload `Write` failing and the newline
`Write` succeeding, reports one exported record and a NIL error although the
payload was never written (the file holds only the newline): the payload
write's error is discarded. -/
theorem errorSwallowing_bug_eval :
    (jsonMarshalTXEntry ⟨"x", false⟩ = none ∧
      storePendingIntermediateTx emptyBuckets ⟨1, "a"⟩ ⟨"x", false⟩ true =
        (emptyBuckets, none)) ∧
    (exportExpiredAuthData (storeFetchData emptyFetchTable "snap" FetchDataType.authData 0)
        (authDataExpiredDuration + 5) ⟨[], [false, true]⟩ =
      ((1, none), ⟨["\n"], []⟩)) := by
  constructor
  · exact ⟨rfl, rfl⟩
  · decide

end ReserveData
